import Mathlib

/-
Verification development for the mdmailbox repository.

Addresses, logins, lines and file names are modelled as lists of
characters.  A text file is modelled as a list of lines.  Filesystem
access, environment variables and the network are outside the model:
the credential store operates on the parsed list of entries, and the
SMTP transport is passed in as a function from credential and
connection parameters to an outcome.
-/

set_option maxRecDepth 8000

/-- Character lists stand for the Python strings of the source. -/
abbrev Chars := List Char

/-- SMTP credential entry, embedded from the Credential dataclass of
src/mdmail/authinfo.py, which is also the CredentialEntry data model of
the spec (machine, login, password). -/
structure Credential where
  machine : Chars
  login : Chars
  password : Chars
  deriving DecidableEq

/-- Local part of an address: the characters before the first at sign. -/
def localOf (a : Chars) : Chars := a.takeWhile (fun c => c != '@')

/-- Domain part of an address: the characters after the first at sign. -/
def domainOf (a : Chars) : Chars := (a.dropWhile (fun c => c != '@')).drop 1

/-- Modelled from the spec: gmail local-part folding of the Address
Normalizer (spec 4.1), implemented in mdmailbox/authinfo.py which is not
under src/.  It removes every dot from the local part and then truncates
the local part at the first plus character. -/
def gmailLocalFold (l : Chars) : Chars :=
  (l.filter (fun c => c != '.')).takeWhile (fun c => c != '+')

/-- Modelled from the spec: normalizeAddr(address) of spec 4.1.  For an
address whose domain is exactly gmail.com the local part is folded;
every other address is left unchanged. -/
def normalizeAddr (a : Chars) : Chars :=
  if domainOf a = "gmail.com".toList then
    gmailLocalFold (localOf a) ++ '@' :: domainOf a
  else a

/-- Modelled from the spec: lookup(address, entries) of spec 4.2,
implemented by find_credential_by_email in mdmailbox/authinfo.py which
is not under src/ (only its tests in src/tests/test_integration.py and
its callers in src/mdmailbox are).  Three tiers in strict priority
order: exact literal match, normalized match, wildcard domain match;
within a tier the first entry in file order wins. -/
def find_credential_by_email (entries : List Credential) (address : Chars) :
    Option Credential :=
  match entries.find? (fun c => c.login == address) with
  | some c => some c
  | none =>
    match entries.find? (fun c => normalizeAddr c.login == normalizeAddr address) with
    | some c => some c
    | none => entries.find? (fun c => c.login == '*' :: '@' :: domainOf address)

/-- takeWhile distributes over an append whose left part satisfies the
predicate everywhere. -/
theorem takeWhile_append_all {α : Type} (p : α → Bool) (xs ys : List α)
    (h : ∀ x ∈ xs, p x = true) :
    (xs ++ ys).takeWhile p = xs ++ ys.takeWhile p := by
  induction xs with
  | nil => simp
  | cons a t ih =>
    have ha := h a (by simp)
    have ih2 := ih (fun x hx => h x (by simp [hx]))
    simp [List.takeWhile_cons, ha, ih2]

/-- dropWhile jumps over an append whose left part satisfies the
predicate everywhere. -/
theorem dropWhile_append_all {α : Type} (p : α → Bool) (xs ys : List α)
    (h : ∀ x ∈ xs, p x = true) :
    (xs ++ ys).dropWhile p = ys.dropWhile p := by
  induction xs with
  | nil => simp
  | cons a t ih =>
    have ha := h a (by simp)
    have ih2 := ih (fun x hx => h x (by simp [hx]))
    simp [List.dropWhile_cons, ha, ih2]

/-- Members of a takeWhile are members of the original list. -/
theorem mem_of_mem_takeWhile {α : Type} (p : α → Bool) (l : List α) (x : α)
    (h : x ∈ l.takeWhile p) : x ∈ l := by
  induction l with
  | nil => simp at h
  | cons a t ih =>
    rw [List.takeWhile_cons] at h
    by_cases hp : p a = true
    · simp [hp] at h
      rcases h with h | h
      · simp [h]
      · exact List.mem_cons_of_mem _ (ih h)
    · simp [Bool.eq_false_iff.mpr hp] at h

/-- The local part of an address contains no at sign. -/
theorem at_not_mem_localOf (a : Chars) : '@' ∉ localOf a := by
  intro h
  unfold localOf at h
  have hp := List.mem_takeWhile_imp h
  simp at hp

/-- Prepending a local part without an at sign leaves it as the local
part of the resulting address. -/
theorem localOf_append (L r : Chars) (hL : '@' ∉ L) :
    localOf (L ++ '@' :: r) = L := by
  unfold localOf
  rw [takeWhile_append_all _ _ _ (fun c hc => by
    simp only [bne_iff_ne, ne_eq]
    intro hcat
    exact hL (hcat ▸ hc))]
  simp

/-- Prepending a local part without an at sign leaves the rest as the
domain of the resulting address. -/
theorem domainOf_append (L r : Chars) (hL : '@' ∉ L) :
    domainOf (L ++ '@' :: r) = r := by
  unfold domainOf
  rw [dropWhile_append_all _ _ _ (fun c hc => by
    simp only [bne_iff_ne, ne_eq]
    intro hcat
    exact hL (hcat ▸ hc))]
  simp

/-- The gmail fold of a local part without an at sign contains no at
sign either. -/
theorem at_not_mem_gmailLocalFold (l : Chars) (h : '@' ∉ l) :
    '@' ∉ gmailLocalFold l := by
  intro hmem
  unfold gmailLocalFold at hmem
  have h1 := mem_of_mem_takeWhile _ _ _ hmem
  have h2 := List.mem_of_mem_filter h1
  exact h h2

/-- Normalization never changes the domain of an address. -/
theorem domainOf_normalizeAddr (a : Chars) : domainOf (normalizeAddr a) = domainOf a := by
  unfold normalizeAddr
  split
  · next h =>
    rw [domainOf_append _ _ (at_not_mem_gmailLocalFold _ (at_not_mem_localOf a))]
  · rfl

/-- Claim C1: if some entry literal login equals the address verbatim,
lookup returns the first such entry in file order, regardless of any
wildcard entry for the domain of the address appearing earlier in the
file: the exact tier outranks the other tiers, and file position only
breaks ties within the tier. -/
theorem exact_login_match_wins (entries : List Credential) (A : Chars) (e : Credential)
    (h : entries.find? (fun c => c.login == A) = some e) :
    find_credential_by_email entries A = some e ∧ e.login = A := by
  constructor
  · unfold find_credential_by_email
    rw [h]
  · have hp := List.find?_some h
    simpa using hp

/-- Witness for C1: a wildcard entry for example.com appears first in
the file, yet the later entry with the literal login wins. -/
theorem exact_login_match_wins_witness :
    find_credential_by_email
      [⟨"smtp.example.com".toList, "*@example.com".toList, "wildcard".toList⟩,
        ⟨"smtp.example.com".toList, "specific@example.com".toList, "exact".toList⟩]
      ("specific@example.com".toList) =
      some ⟨"smtp.example.com".toList, "specific@example.com".toList, "exact".toList⟩ ∧
    (Credential.mk "smtp.example.com".toList "specific@example.com".toList
        "exact".toList).login = "specific@example.com".toList :=
  exact_login_match_wins _ _ _ (by decide)

/-- Claim C2: for a gmail.com address, lookup compares after removing
every dot of the local part and truncating it at the first plus sign,
so addresses differing only in dot placement or a plus tag resolve to
the same credential entry. -/
theorem gmail_normalized_lookup (m p L A : Chars)
    (hdom : domainOf A = "gmail.com".toList)
    (hL : '@' ∉ L)
    (hfold : gmailLocalFold (localOf A) = gmailLocalFold L) :
    find_credential_by_email [⟨m, L ++ '@' :: "gmail.com".toList, p⟩] A =
      some ⟨m, L ++ '@' :: "gmail.com".toList, p⟩ ∧
    normalizeAddr A =
      ((localOf A).filter (fun c => c != '.')).takeWhile (fun c => c != '+') ++
        '@' :: "gmail.com".toList := by
  have hA2 : normalizeAddr A = gmailLocalFold (localOf A) ++ '@' :: "gmail.com".toList := by
    unfold normalizeAddr
    rw [if_pos hdom, hdom]
  have hL2 : normalizeAddr (L ++ '@' :: "gmail.com".toList) =
      gmailLocalFold L ++ '@' :: "gmail.com".toList := by
    unfold normalizeAddr
    rw [domainOf_append _ _ hL, localOf_append _ _ hL, if_pos rfl]
  refine ⟨?_, by rw [hA2]; rfl⟩
  unfold find_credential_by_email
  cases h1 : List.find? (fun c => c.login == A)
      [Credential.mk m (L ++ '@' :: "gmail.com".toList) p] with
  | some c =>
    have hc := List.mem_of_find?_eq_some h1
    simp only [List.mem_singleton] at hc
    subst hc
    rfl
  | none =>
    have hpred : (fun c => normalizeAddr c.login == normalizeAddr A)
        (Credential.mk m (L ++ '@' :: "gmail.com".toList) p) = true := by
      simp only [hL2, hA2, hfold, beq_iff_eq]
    have h2 : List.find? (fun c => normalizeAddr c.login == normalizeAddr A)
        [Credential.mk m (L ++ '@' :: "gmail.com".toList) p] =
        some (Credential.mk m (L ++ '@' :: "gmail.com".toList) p) :=
      List.find?_cons_of_pos _ hpred
    rw [h2]

/-- Witness for C2: the concrete scenario of the spec, where the entry
login is hhartmann1729 at gmail.com and the looked up address is
h.hartmann.1729+test at gmail.com; lookup returns the entry and with it
the password secret. -/
theorem gmail_normalized_lookup_witness :
    find_credential_by_email
      [⟨"smtp.gmail.com".toList, "hhartmann1729".toList ++ '@' :: "gmail.com".toList,
        "secret".toList⟩] ("h.hartmann.1729+test@gmail.com".toList) =
      some ⟨"smtp.gmail.com".toList, "hhartmann1729".toList ++ '@' :: "gmail.com".toList,
        "secret".toList⟩ ∧
    normalizeAddr ("h.hartmann.1729+test@gmail.com".toList) =
      ((localOf ("h.hartmann.1729+test@gmail.com".toList)).filter
          (fun c => c != '.')).takeWhile (fun c => c != '+') ++
        '@' :: "gmail.com".toList :=
  gmail_normalized_lookup _ _ _ _ (by decide) (by decide) (by decide)

/-- Claim C3: a wildcard entry star at D matches an address exactly when
the domain portion of the address equals D; any local part at D matches
and no address at another domain does. -/
theorem wildcard_domain_match_iff (m p D A : Chars) :
    find_credential_by_email [⟨m, '*' :: '@' :: D, p⟩] A =
      some ⟨m, '*' :: '@' :: D, p⟩ ↔ domainOf A = D := by
  have hdw : domainOf ('*' :: '@' :: D) = D := by
    have h1 : ('*' != '@') = true := by decide
    have h2 : ('@' != '@') = false := by decide
    simp [domainOf, List.dropWhile_cons, h1, h2]
  constructor
  · intro h
    unfold find_credential_by_email at h
    cases h1 : List.find? (fun c => c.login == A) [Credential.mk m ('*' :: '@' :: D) p] with
    | some c =>
      rw [h1] at h
      have hc := List.mem_of_find?_eq_some h1
      simp only [List.mem_singleton] at hc
      subst hc
      have hp := List.find?_some h1
      simp only [beq_iff_eq] at hp
      rw [← hp]
      exact hdw
    | none =>
      rw [h1] at h
      cases h2 : List.find? (fun c => normalizeAddr c.login == normalizeAddr A)
          [Credential.mk m ('*' :: '@' :: D) p] with
      | some c =>
        rw [h2] at h
        have hc := List.mem_of_find?_eq_some h2
        simp only [List.mem_singleton] at hc
        subst hc
        have hp := List.find?_some h2
        simp only [beq_iff_eq] at hp
        have hd := congrArg domainOf hp
        rw [domainOf_normalizeAddr, domainOf_normalizeAddr, hdw] at hd
        exact hd.symm
      | none =>
        rw [h2] at h
        have hp := List.find?_some h
        simp only [beq_iff_eq, List.cons.injEq] at hp
        exact hp.2.2.symm
  · intro h
    subst h
    unfold find_credential_by_email
    cases h1 : List.find? (fun c => c.login == A)
        [Credential.mk m ('*' :: '@' :: domainOf A) p] with
    | some c =>
      have hc := List.mem_of_find?_eq_some h1
      simp only [List.mem_singleton] at hc
      subst hc
      rfl
    | none =>
      cases h2 : List.find? (fun c => normalizeAddr c.login == normalizeAddr A)
          [Credential.mk m ('*' :: '@' :: domainOf A) p] with
      | some c =>
        have hc := List.mem_of_find?_eq_some h2
        simp only [List.mem_singleton] at hc
        subst hc
        rfl
      | none =>
        have h3 : List.find? (fun c => c.login == '*' :: '@' :: domainOf A)
            [Credential.mk m ('*' :: '@' :: domainOf A) p] =
            some (Credential.mk m ('*' :: '@' :: domainOf A) p) :=
          List.find?_cons_of_pos _ (by simp)
        rw [h3]

/-- Witness for C3: the wildcard entry for heinrichhartmann.com matches
an arbitrary local part at that domain. -/
theorem wildcard_domain_match_iff_witness :
    find_credential_by_email
      [⟨"smtp.migadu.com".toList, '*' :: '@' :: "heinrichhartmann.com".toList,
        "secret".toList⟩] ("heinrich@heinrichhartmann.com".toList) =
      some ⟨"smtp.migadu.com".toList, '*' :: '@' :: "heinrichhartmann.com".toList,
        "secret".toList⟩ :=
  (wildcard_domain_match_iff _ _ _ _).mpr (by decide)

/-- Claim C8: for an address whose domain is not gmail.com, no dot or
plus folding happens: normalization is the identity, and concretely the
dotted address u.ser at example.com does not match an entry whose login
is user at example.com. -/
theorem non_gmail_no_folding (A : Chars) (h : domainOf A ≠ "gmail.com".toList) :
    normalizeAddr A = A ∧
    find_credential_by_email
      [⟨"smtp.example.com".toList, "user@example.com".toList, "pass".toList⟩]
      ("u.ser@example.com".toList) = none := by
  refine ⟨?_, by decide⟩
  unfold normalizeAddr
  rw [if_neg h]

/-- Witness for C8: instantiated at the dotted address itself, whose
domain example.com is not gmail.com. -/
theorem non_gmail_no_folding_witness :
    normalizeAddr ("u.ser@example.com".toList) = "u.ser@example.com".toList ∧
    find_credential_by_email
      [⟨"smtp.example.com".toList, "user@example.com".toList, "pass".toList⟩]
      ("u.ser@example.com".toList) = none :=
  non_gmail_no_folding _ (by decide)

/-- Message record, embedded from the Email class of mdmailbox (the
MessageRecord of spec section 3): header fields, a body, and optional
provenance metadata.  The body is modelled as a list of lines.  The
field called to in the source is named to_addrs here because to is a
reserved token in this environment. -/
structure Email where
  from_addr : Chars
  to_addrs : List Chars
  cc : List Chars
  bcc : List Chars
  subject : Chars
  body : List Chars
  message_id : Option Chars
  date : Option Chars
  account : Option Chars
  original_hash : Option Chars
  deriving DecidableEq

/-- Result of sending an email, embedded field for field from the
SendResult dataclass of src/mdmailbox/smtp.py: success flag, human
readable message, optional message id.  These are its only fields. -/
structure SendResult where
  success : Bool
  message : Chars
  message_id : Option Chars
  deriving DecidableEq

/-- Outcome of one SMTP session with the underlying transport, which is
out of scope per the spec: a clean send with the server message id, or
one of the three exception classes caught in src/mdmailbox/smtp.py
(smtplib.SMTPAuthenticationError, smtplib.SMTPException, and any other
exception). -/
inductive TransportOutcome where
  | ok (message_id : Chars)
  | authError (err : Chars)
  | smtpError (err : Chars)
  | otherError (err : Chars)
  deriving DecidableEq

/-- Envelope recipient collection of src/mdmailbox/smtp.py lines 50-53:
start from the to list, extend with cc, extend with bcc. -/
def collectRecipients (e : Email) : List Chars :=
  let recipients := e.to_addrs
  let recipients := recipients ++ e.cc
  let recipients := recipients ++ e.bcc
  recipients

/-- send_email of src/mdmailbox/smtp.py.  When no credential is given it
is looked up by the from address; a miss returns a failure result.  The
smtplib session is modelled by the transport argument, which receives
the credential, port, TLS flag and the envelope recipient list and
reports an outcome; each caught exception class maps to a failure
result with the corresponding message prefix.  The second component of
the returned pair records the envelope recipient list handed to the
transport, if the transport was reached. -/
def send_email (entries : List Credential) (credential : Option Credential)
    (email : Email) (port : Nat) (use_tls : Bool)
    (transport : Credential → Nat → Bool → List Chars → TransportOutcome) :
    SendResult × Option (List Chars) :=
  match credential.orElse (fun _ => find_credential_by_email entries email.from_addr) with
  | none =>
    (⟨false, "No credentials found for ".toList ++ email.from_addr ++
      " in .authinfo".toList, none⟩, none)
  | some cred =>
    match transport cred port use_tls (collectRecipients email) with
    | TransportOutcome.ok mid =>
      (⟨true, "Email sent successfully".toList, some mid⟩, some (collectRecipients email))
    | TransportOutcome.authError err =>
      (⟨false, "Authentication failed: ".toList ++ err, none⟩, some (collectRecipients email))
    | TransportOutcome.smtpError err =>
      (⟨false, "SMTP error: ".toList ++ err, none⟩, some (collectRecipients email))
    | TransportOutcome.otherError err =>
      (⟨false, "Failed to send: ".toList ++ err, none⟩, some (collectRecipients email))

/-- Claim C6: send_email is total over every transport outcome, so no
exception escapes its boundary.  The result succeeds exactly when a
credential was resolved and the transport reported a clean send; in
every other case, including the no-credential miss and all three caught
exception classes, it returns success false with a nonempty
human-readable message; on a credential miss the message is the
no-credentials text. -/
theorem send_email_never_raises (entries : List Credential)
    (credential : Option Credential) (email : Email) (port : Nat) (use_tls : Bool)
    (transport : Credential → Nat → Bool → List Chars → TransportOutcome) :
    ((send_email entries credential email port use_tls transport).1.success = true ↔
      ∃ cred mid,
        credential.orElse (fun _ => find_credential_by_email entries email.from_addr) =
          some cred ∧
        transport cred port use_tls (collectRecipients email) =
          TransportOutcome.ok mid) ∧
    (send_email entries credential email port use_tls transport).1.message ≠ [] ∧
    (credential.orElse (fun _ => find_credential_by_email entries email.from_addr) =
        none →
      (send_email entries credential email port use_tls transport).1 =
        ⟨false, "No credentials found for ".toList ++ email.from_addr ++
          " in .authinfo".toList, none⟩) := by
  unfold send_email
  split
  · next hres =>
    simp [hres]
  · next cred hres =>
    split
    · next mid hout =>
      refine ⟨?_, by simp, ?_⟩
      · constructor
        · intro _
          exact ⟨cred, mid, hres, hout⟩
        · intro _
          rfl
      · intro hnone
        rw [hres] at hnone
        cases hnone
    · next err hout =>
      refine ⟨?_, by simp, ?_⟩
      · constructor
        · intro hfalse
          simp at hfalse
        · rintro ⟨c, m, hc, hmid⟩
          rw [hres] at hc
          have hcc := Option.some.inj hc
          subst hcc
          rw [hout] at hmid
          cases hmid
      · intro hnone
        rw [hres] at hnone
        cases hnone
    · next err hout =>
      refine ⟨?_, by simp, ?_⟩
      · constructor
        · intro hfalse
          simp at hfalse
        · rintro ⟨c, m, hc, hmid⟩
          rw [hres] at hc
          have hcc := Option.some.inj hc
          subst hcc
          rw [hout] at hmid
          cases hmid
      · intro hnone
        rw [hres] at hnone
        cases hnone
    · next err hout =>
      refine ⟨?_, by simp, ?_⟩
      · constructor
        · intro hfalse
          simp at hfalse
        · rintro ⟨c, m, hc, hmid⟩
          rw [hres] at hc
          have hcc := Option.some.inj hc
          subst hcc
          rw [hout] at hmid
          cases hmid
      · intro hnone
        rw [hres] at hnone
        cases hnone

/-- Email of the failing-lookup scenario of the integration tests: the
from address has no entry in an empty credential file. -/
def failMail : Email :=
  Email.mk "unknown@example.com".toList ["recipient@example.com".toList]
    [] [] "Should Fail".toList ["This should not be sent.".toList]
    none none none none

/-- A transport that always fails with a generic exception. -/
def failTransport : Credential → Nat → Bool → List Chars → TransportOutcome :=
  fun _ _ _ _ => TransportOutcome.otherError "unreachable".toList

/-- Witness for C6: with an empty credential file and no explicit
credential, send_email returns the no-credentials failure result
instead of raising. -/
theorem send_email_never_raises_witness :
    (send_email [] none failMail 587 true failTransport).1 =
      ⟨false, "No credentials found for ".toList ++ "unknown@example.com".toList ++
        " in .authinfo".toList, none⟩ :=
  (send_email_never_raises [] none failMail 587 true failTransport).2.2 (by decide)

/-- Claim C10: whenever a credential is resolved, the envelope recipient
list handed to the transport is exactly the to list, then the cc list,
then the bcc list, so every bcc address is among the SMTP envelope
recipients. -/
theorem envelope_recipients_are_to_cc_bcc (entries : List Credential)
    (credential : Option Credential) (email : Email) (port : Nat) (use_tls : Bool)
    (transport : Credential → Nat → Bool → List Chars → TransportOutcome)
    (cred : Credential)
    (h : credential.orElse
      (fun _ => find_credential_by_email entries email.from_addr) = some cred) :
    (send_email entries credential email port use_tls transport).2 =
      some (email.to_addrs ++ email.cc ++ email.bcc) ∧
    ∀ b ∈ email.bcc, b ∈ email.to_addrs ++ email.cc ++ email.bcc := by
  constructor
  · unfold send_email
    split
    · next hres =>
      rw [h] at hres
      cases hres
    · next cred2 hres =>
      split <;> rfl
  · intro b hb
    exact List.mem_append_right _ hb

/-- Email of the multi-recipient scenario, with one address in each of
the to, cc and bcc lists. -/
def multiMail : Email :=
  Email.mk "sender@example.com".toList ["alice@example.com".toList]
    ["charlie@example.com".toList] ["dave@example.com".toList]
    "Multi-recipient Test".toList ["Hello everyone.".toList]
    none none none none

/-- The explicit credential of the multi-recipient scenario. -/
def multiCred : Credential :=
  Credential.mk "smtp.example.com".toList "sender@example.com".toList
    "testpass".toList

/-- A transport that always reports a clean send. -/
def okTransport : Credential → Nat → Bool → List Chars → TransportOutcome :=
  fun _ _ _ _ => TransportOutcome.ok "mid".toList

/-- Witness for C10: the concrete multi-recipient email is handed to the
transport with to, cc and bcc concatenated in that order. -/
theorem envelope_recipients_are_to_cc_bcc_witness :
    (send_email [] (some multiCred) multiMail 587 false okTransport).2 =
      some (multiMail.to_addrs ++ multiMail.cc ++ multiMail.bcc) :=
  (envelope_recipients_are_to_cc_bcc [] (some multiCred) multiMail 587 false
    okTransport multiCred (by decide)).1

/-- Claim C4: the SendResult of src/mdmailbox/smtp.py consists of the
three fields success, message and message_id and nothing else; in
particular it carries none of the sent_at, smtp_host, smtp_port,
smtp_response and log values that _save_with_audit_trail in
src/mdmailbox/cli.py reads from it to write the Send Log block, so the
claimed audit trail cannot be produced by the code as written. -/
theorem sendresult_has_only_three_fields (r : SendResult) :
    r = SendResult.mk r.success r.message r.message_id := rfl

/-- Terminal state of one import pipeline step for one source message:
either a new file was written under the given name, or the write was
skipped as a duplicate. -/
inductive ImportAction where
  | written (filename : Chars)
  | skipped
  deriving DecidableEq

/-- Modelled from the spec: the Write stage of the import pipeline of
spec 4.4, implemented in mdmailbox/importer.py which is not under src/.
Per the spec design notes the pipeline is a pure function of the source
message and the index of fingerprints already imported for the account:
when the fingerprint of the raw bytes is already present the message is
skipped and the index is unchanged, otherwise the file is written and
the fingerprint is appended to the index.  The fingerprint function is
a parameter standing for the content hash of the raw bytes. -/
def importOne (fingerprint : Chars → Chars) (index : List Chars)
    (raw : Chars) (filename : Chars) : ImportAction × List Chars :=
  if fingerprint raw ∈ index then (ImportAction.skipped, index)
  else (ImportAction.written filename, fingerprint raw :: index)

/-- Claim C7: importing the same source message twice into the same
account writes exactly one file: the first run writes the file and
records the fingerprint, the second run ends in the terminal state
skipped because a message with the same raw-content fingerprint is
already in the account index, and the second run leaves the index
unchanged. -/
theorem import_same_message_twice (fingerprint : Chars → Chars)
    (index : List Chars) (raw : Chars) (filename : Chars)
    (h : fingerprint raw ∉ index) :
    (importOne fingerprint index raw filename).1 =
      ImportAction.written filename ∧
    (importOne fingerprint (importOne fingerprint index raw filename).2 raw
      filename).1 = ImportAction.skipped ∧
    (importOne fingerprint (importOne fingerprint index raw filename).2 raw
      filename).2 = (importOne fingerprint index raw filename).2 := by
  simp [importOne, h]

/-- Witness for C7: a concrete raw message imported twice into a fresh
account index with the identity fingerprint. -/
theorem import_same_message_twice_witness :
    (importOne (fun r => r) [] "raw message".toList
      "2025-01-22-alice-hello-bob.md".toList).1 =
      ImportAction.written "2025-01-22-alice-hello-bob.md".toList ∧
    (importOne (fun r => r)
      (importOne (fun r => r) [] "raw message".toList
        "2025-01-22-alice-hello-bob.md".toList).2 "raw message".toList
      "2025-01-22-alice-hello-bob.md".toList).1 = ImportAction.skipped ∧
    (importOne (fun r => r)
      (importOne (fun r => r) [] "raw message".toList
        "2025-01-22-alice-hello-bob.md".toList).2 "raw message".toList
      "2025-01-22-alice-hello-bob.md".toList).2 =
      (importOne (fun r => r) [] "raw message".toList
        "2025-01-22-alice-hello-bob.md".toList).2 :=
  import_same_message_twice (fun r => r) [] "raw message".toList
    "2025-01-22-alice-hello-bob.md".toList (by decide)

/-- Collapse every run of consecutive dashes to a single dash. -/
def collapseDashes : Chars → Chars
  | [] => []
  | [c] => [c]
  | c1 :: c2 :: rest =>
    if c1 == '-' && c2 == '-' then collapseDashes (c2 :: rest)
    else c1 :: collapseDashes (c2 :: rest)

/-- Drop leading and trailing dashes. -/
def trimDashes (l : Chars) : Chars :=
  ((l.dropWhile (fun c => c == '-')).reverse.dropWhile (fun c => c == '-')).reverse

/-- Modelled from the spec: sanitize_filename of mdmailbox/importer.py,
which is not under src/.  Slugging per spec 4.4: lowercase, runs of
non-alphanumeric characters collapsed to a single dash, leading and
trailing dashes trimmed, truncated to the given maximum length, and the
literal unknown when the result is empty. -/
def sanitize_filename (s : Chars) (maxLen : Nat) : Chars :=
  let lowered := s.map Char.toLower
  let dashed := lowered.map (fun c => if c.isAlphanum then c else '-')
  let trimmed := trimDashes (collapseDashes dashed)
  let cut := trimmed.take maxLen
  if cut = [] then "unknown".toList else cut

/-- A calendar date, as the year, month and day of the parsed date
header. -/
structure DateYMD where
  year : Nat
  month : Nat
  day : Nat
  deriving DecidableEq

/-- Decimal digits of a natural number. -/
def natDigits (n : Nat) : Chars := (Nat.repr n).toList

/-- Zero-padded two-digit component. -/
def pad2 (n : Nat) : Chars := if n < 10 then '0' :: natDigits n else natDigits n

/-- Zero-padded four-digit component. -/
def pad4 (n : Nat) : Chars :=
  if n < 10 then '0' :: '0' :: '0' :: natDigits n
  else if n < 100 then '0' :: '0' :: natDigits n
  else if n < 1000 then '0' :: natDigits n
  else natDigits n

/-- Date component of a generated filename: YYYY-MM-DD from the parsed
date, or the literal 0000-00-00 when the date is absent. -/
def formatDate : Option DateYMD → Chars
  | none => "0000-00-00".toList
  | some d => pad4 d.year ++ '-' :: pad2 d.month ++ '-' :: pad2 d.day

/-- Modelled from the spec: generate_filename of mdmailbox/importer.py,
which is not under src/.  Per spec 4.4 the name is the date component,
the slug of the local part of the from address, and the slug of the
subject, separated by dashes, with the md extension. -/
def generate_filename (date : Option DateYMD) (from_addr subject : Chars) : Chars :=
  formatDate date ++ '-' :: sanitize_filename (localOf from_addr) 40 ++
    '-' :: sanitize_filename subject 40 ++ ".md".toList

/-- Claim C9: generate_filename returns date, sender slug and subject
slug joined by dashes with the md extension, where the date component
is YYYY-MM-DD from the given date or the literal 0000-00-00 when the
date is absent; concretely, date 2025-01-23 with sender at example.com
and subject Test Subject yields 2025-01-23-sender-test-subject.md. -/
theorem generate_filename_spec :
    generate_filename (some (DateYMD.mk 2025 1 23)) "sender@example.com".toList
      "Test Subject".toList = "2025-01-23-sender-test-subject.md".toList ∧
    (∀ f s, generate_filename none f s =
      "0000-00-00".toList ++ '-' :: sanitize_filename (localOf f) 40 ++
        '-' :: sanitize_filename s 40 ++ ".md".toList) ∧
    (∀ d f s, generate_filename (some d) f s =
      (pad4 d.year ++ '-' :: pad2 d.month ++ '-' :: pad2 d.day) ++
        '-' :: sanitize_filename (localOf f) 40 ++
        '-' :: sanitize_filename s 40 ++ ".md".toList) :=
  ⟨by decide, fun _ _ => rfl, fun _ _ _ => rfl⟩

/-- The delimiter line of the header block. -/
def delimLine : Chars := ['-', '-', '-']

/-- Key of the from header field. -/
def kFrom : Chars := ['f', 'r', 'o', 'm']

/-- Key of the to header field. -/
def kTo : Chars := ['t', 'o']

/-- Key of the cc header field. -/
def kCc : Chars := ['c', 'c']

/-- Key of the bcc header field. -/
def kBcc : Chars := ['b', 'c', 'c']

/-- Key of the subject header field. -/
def kSubject : Chars := ['s', 'u', 'b', 'j', 'e', 'c', 't']

/-- Key of the date header field. -/
def kDate : Chars := ['d', 'a', 't', 'e']

/-- Key of the message-id header field. -/
def kMessageId : Chars := ['m', 'e', 's', 's', 'a', 'g', 'e', '-', 'i', 'd']

/-- Key of the account header field. -/
def kAccount : Chars := ['a', 'c', 'c', 'o', 'u', 'n', 't']

/-- Key of the original-hash header field. -/
def kOriginalHash : Chars := ['o', 'r', 'i', 'g', 'i', 'n', 'a', 'l', '-', 'h', 'a', 's', 'h']

/-- A header line holding a scalar value: key, colon, space, value. -/
def scalarLine (k v : Chars) : Chars := k ++ ':' :: ' ' :: v

/-- The prefix marking a list item line in the header block. -/
def itemPre : Chars := [' ', ' ', '-', ' ']

/-- Whether a line is a list item line of the header block. -/
def isItemLine (l : Chars) : Bool := itemPre.isPrefixOf l

/-- Header lines of a list-valued field: the key line followed by one
item line per element. -/
def listLines (k : Chars) (vs : List Chars) : List Chars :=
  (k ++ [':']) :: vs.map (fun v => itemPre ++ v)

/-- Header lines of an optional scalar field: nothing when absent. -/
def optScalarLines (k : Chars) : Option Chars → List Chars
  | none => []
  | some v => [scalarLine k v]

/-- Header lines of an optional list field: nothing when empty. -/
def optListLines (k : Chars) (vs : List Chars) : List Chars :=
  if vs = [] then [] else listLines k vs

/-- Modelled from the spec: the header block emitted by toText for the
populated fields of a record, in the field order of the message file
format of spec section 6 (from, to, cc, bcc, subject, date, message-id,
account, original-hash). -/
def headerLines (r : Email) : List Chars :=
  scalarLine kFrom r.from_addr ::
    (listLines kTo r.to_addrs ++
      (optListLines kCc r.cc ++
        (optListLines kBcc r.bcc ++
          (scalarLine kSubject r.subject ::
            (optScalarLines kDate r.date ++
              (optScalarLines kMessageId r.message_id ++
                (optScalarLines kAccount r.account ++
                  optScalarLines kOriginalHash r.original_hash)))))))

/-- Trailing-newline normalization of the body, in the lines model: a
body ending with exactly one trailing newline is a line list with no
trailing empty line, so normalization drops trailing empty lines. -/
def normalizeBody (b : List Chars) : List Chars :=
  (b.reverse.dropWhile (fun l => l.isEmpty)).reverse

/-- Modelled from the spec: toText of the Message Record serialization
(spec 4.3), implemented by Email.to_string in mdmailbox/email.py which
is not under src/.  A text file is a list of lines: the delimiter, the
header block with only the populated fields, the delimiter, one blank
separator line, then the body normalized to end with exactly one
trailing newline. -/
def toText (r : Email) : List Chars :=
  delimLine :: (headerLines r ++ (delimLine :: ([] :: normalizeBody r.body)))

/-- A decoded header value: a single scalar or an ordered list. -/
inductive FieldVal where
  | scalar (v : Chars)
  | list (vs : List Chars)
  deriving DecidableEq

/-- Parse the lines of the header block into key and value pairs: a
line of the form key colon space value is a scalar field, a line of the
form key colon collects the following item lines as an ordered list,
and anything else is skipped (malformed lines are tolerated). -/
def parseFields : List Chars → List (Chars × FieldVal)
  | [] => []
  | l :: rest =>
    match l.dropWhile (fun c => c != ':') with
    | [':'] =>
      (l.takeWhile (fun c => c != ':'),
        FieldVal.list ((rest.takeWhile isItemLine).map (fun i => i.drop 4))) ::
        parseFields (rest.dropWhile isItemLine)
    | ':' :: ' ' :: v =>
      (l.takeWhile (fun c => c != ':'), FieldVal.scalar v) :: parseFields rest
    | _ => parseFields rest
termination_by ls => ls.length
decreasing_by
  all_goals simp only [List.length_cons]
  all_goals have hlen := (List.dropWhile_sublist isItemLine (l := rest)).length_le
  all_goals omega

/-- Strip at most one leading blank line from the body section. -/
def stripOneLeadingBlank : List Chars → List Chars
  | [] => []
  | l :: t => if l = [] then t else l :: t

/-- The record with no populated header fields and the given body. -/
def emptyEmail (body : List Chars) : Email :=
  Email.mk [] [] [] [] [] body none none none none

/-- Apply one decoded header field to a record under construction: the
recognized keys set the corresponding field, a scalar for to, cc or bcc
counts as a one-element list, and unknown keys are ignored. -/
def applyField (r : Email) : Chars × FieldVal → Email
  | (k, FieldVal.scalar v) =>
    if k = kFrom then { r with from_addr := v }
    else if k = kTo then { r with to_addrs := [v] }
    else if k = kCc then { r with cc := [v] }
    else if k = kBcc then { r with bcc := [v] }
    else if k = kSubject then { r with subject := v }
    else if k = kDate then { r with date := some v }
    else if k = kMessageId then { r with message_id := some v }
    else if k = kAccount then { r with account := some v }
    else if k = kOriginalHash then { r with original_hash := some v }
    else r
  | (k, FieldVal.list vs) =>
    if k = kTo then { r with to_addrs := vs }
    else if k = kCc then { r with cc := vs }
    else if k = kBcc then { r with bcc := vs }
    else r

/-- Build a record from the decoded header fields and the body. -/
def buildRecord (fields : List (Chars × FieldVal)) (body : List Chars) : Email :=
  fields.foldl applyField (emptyEmail body)

/-- Modelled from the spec: fromText of the Message Record
serialization (spec 4.3), implemented by Email.from_string in
mdmailbox/email.py which is not under src/.  The input must start with
the delimiter line; the header block runs to the next delimiter line
and is decoded as key and value pairs; the body is everything after
that delimiter with at most one leading blank line stripped. -/
def fromText (ls : List Chars) : Option Email :=
  match ls with
  | [] => none
  | d :: rest =>
    if d = delimLine then
      match rest.dropWhile (fun l => l != delimLine) with
      | [] => none
      | _ :: bodyRest =>
        some (buildRecord (parseFields (rest.takeWhile (fun l => l != delimLine)))
          (stripOneLeadingBlank bodyRest))
    else none

/-- A line is free of newline characters. -/
def lineOk (l : Chars) : Bool := l.all (fun c => c != '\n')

/-- Well-formedness of a record for serialization: the required from,
to and subject fields are populated and no field or body line contains
a newline character, so the lines model is faithful to the flat text. -/
def wellFormed (r : Email) : Bool :=
  (!r.from_addr.isEmpty) && (!r.to_addrs.isEmpty) && (!r.subject.isEmpty) &&
    lineOk r.from_addr && lineOk r.subject &&
    r.to_addrs.all lineOk && r.cc.all lineOk && r.bcc.all lineOk &&
    r.body.all lineOk &&
    r.date.elim true lineOk && r.message_id.elim true lineOk &&
    r.account.elim true lineOk && r.original_hash.elim true lineOk

/-- An item line is recognized as an item line. -/
theorem isItemLine_itemPre_append (v : Chars) : isItemLine (itemPre ++ v) = true := by
  simp [isItemLine, itemPre, List.isPrefixOf]

/-- A line whose first character is not a space is not an item line. -/
theorem isItemLine_first_not_space (c : Char) (l : Chars) (hc : (' ' == c) = false) :
    isItemLine (c :: l) = false := by
  simp [isItemLine, itemPre, List.isPrefixOf, hc]

/-- A line whose first character is not a dash differs from the
delimiter line. -/
theorem bne_delim_of_head (c : Char) (l : Chars) (hc : c ≠ '-') :
    ((c :: l) != delimLine) = true := by
  rw [bne_iff_ne]
  intro h
  unfold delimLine at h
  injection h with h1 _
  exact hc h1

/-- Lines of an optional scalar field are scalar lines of its key. -/
theorem mem_optScalarLines {k : Chars} {o : Option Chars} {l : Chars}
    (h : l ∈ optScalarLines k o) : ∃ v, l = scalarLine k v := by
  cases o with
  | none => simp [optScalarLines] at h
  | some v =>
    simp [optScalarLines] at h
    exact ⟨v, h⟩

/-- Lines of a list field are its key line or item lines. -/
theorem mem_listLines {k : Chars} {vs : List Chars} {l : Chars}
    (h : l ∈ listLines k vs) : l = k ++ [':'] ∨ ∃ v, l = itemPre ++ v := by
  simp only [listLines, List.mem_cons, List.mem_map] at h
  rcases h with h | ⟨v, _, rfl⟩
  · exact Or.inl h
  · exact Or.inr ⟨v, rfl⟩

/-- Lines of an optional list field are its key line or item lines. -/
theorem mem_optListLines {k : Chars} {vs : List Chars} {l : Chars}
    (h : l ∈ optListLines k vs) : l = k ++ [':'] ∨ ∃ v, l = itemPre ++ v := by
  unfold optListLines at h
  split at h
  · simp at h
  · exact mem_listLines h

/-- No line of the header block equals the delimiter line: every header
line starts with a key character or the item indentation, never with a
dash. -/
theorem mem_headerLines_ne_delim (r : Email) :
    ∀ l ∈ headerLines r, (l != delimLine) = true := by
  intro l hl
  unfold headerLines at hl
  simp only [List.mem_cons, List.mem_append] at hl
  rcases hl with rfl | hl
  · exact bne_delim_of_head 'f' _ (by decide)
  rcases hl with hl | hl
  · rcases mem_listLines hl with rfl | ⟨v, rfl⟩
    · exact bne_delim_of_head 't' _ (by decide)
    · exact bne_delim_of_head ' ' _ (by decide)
  rcases hl with hl | hl
  · rcases mem_optListLines hl with rfl | ⟨v, rfl⟩
    · exact bne_delim_of_head 'c' _ (by decide)
    · exact bne_delim_of_head ' ' _ (by decide)
  rcases hl with hl | hl
  · rcases mem_optListLines hl with rfl | ⟨v, rfl⟩
    · exact bne_delim_of_head 'b' _ (by decide)
    · exact bne_delim_of_head ' ' _ (by decide)
  rcases hl with rfl | hl
  · exact bne_delim_of_head 's' _ (by decide)
  rcases hl with hl | hl
  · obtain ⟨v, rfl⟩ := mem_optScalarLines hl
    exact bne_delim_of_head 'd' _ (by decide)
  rcases hl with hl | hl
  · obtain ⟨v, rfl⟩ := mem_optScalarLines hl
    exact bne_delim_of_head 'm' _ (by decide)
  rcases hl with hl | hl
  · obtain ⟨v, rfl⟩ := mem_optScalarLines hl
    exact bne_delim_of_head 'a' _ (by decide)
  · obtain ⟨v, rfl⟩ := mem_optScalarLines hl
    exact bne_delim_of_head 'o' _ (by decide)

/-- Parsing a scalar header line yields its key and scalar value. -/
theorem parseFields_scalar (k v : Chars) (rest : List Chars)
    (hk : ∀ c ∈ k, (c != ':') = true) :
    parseFields (scalarLine k v :: rest) =
      (k, FieldVal.scalar v) :: parseFields rest := by
  have hdrop : (scalarLine k v).dropWhile (fun c => c != ':') = ':' :: ' ' :: v := by
    unfold scalarLine
    rw [dropWhile_append_all _ _ _ hk]
    simp [List.dropWhile_cons]
  have htake : (scalarLine k v).takeWhile (fun c => c != ':') = k := by
    unfold scalarLine
    rw [takeWhile_append_all _ _ _ hk]
    simp
  rw [parseFields, hdrop, htake]
  rfl

/-- Parsing a list block yields its key and the collected items, then
continues after the items, provided the next line is not an item
line. -/
theorem parseFields_list (k : Chars) (vs : List Chars) (rest : List Chars)
    (hk : ∀ c ∈ k, (c != ':') = true)
    (hr : ∀ l, rest.head? = some l → isItemLine l = false) :
    parseFields (listLines k vs ++ rest) =
      (k, FieldVal.list vs) :: parseFields rest := by
  have hdrop : (k ++ [':']).dropWhile (fun c => c != ':') = [':'] := by
    rw [dropWhile_append_all _ _ _ hk]
    simp [List.dropWhile_cons]
  have htake : (k ++ [':']).takeWhile (fun c => c != ':') = k := by
    rw [takeWhile_append_all _ _ _ hk]
    simp
  have hitems : ∀ i ∈ vs.map (fun v => itemPre ++ v), isItemLine i = true := by
    intro i hi
    simp only [List.mem_map] at hi
    obtain ⟨v, _, rfl⟩ := hi
    exact isItemLine_itemPre_append v
  have hstop : rest.takeWhile isItemLine = [] ∧ rest.dropWhile isItemLine = rest := by
    cases hrest : rest with
    | nil => simp
    | cons a t =>
      have ha := hr a (by rw [hrest]; rfl)
      constructor
      · simp [List.takeWhile_cons, ha]
      · simp [List.dropWhile_cons, ha]
  have htw : ((vs.map (fun v => itemPre ++ v)) ++ rest).takeWhile isItemLine =
      vs.map (fun v => itemPre ++ v) := by
    rw [takeWhile_append_all _ _ _ hitems, hstop.1, List.append_nil]
  have hdw : ((vs.map (fun v => itemPre ++ v)) ++ rest).dropWhile isItemLine = rest := by
    rw [dropWhile_append_all _ _ _ hitems, hstop.2]
  have hdrop4 : ∀ v : Chars, (itemPre ++ v).drop 4 = v := fun v => rfl
  have hmap : (vs.map (fun v => itemPre ++ v)).map (fun i => i.drop 4) = vs := by
    rw [List.map_map]
    have hcomp : ((fun i : Chars => i.drop 4) ∘ fun v => itemPre ++ v) =
        fun v : Chars => v := funext fun v => hdrop4 v
    rw [hcomp]
    exact List.map_id vs
  simp only [listLines, List.cons_append]
  rw [parseFields, hdrop, htake, htw, hdw, hmap]
  rfl

/-- Decoded form of an optional scalar field. -/
def optFieldS (k : Chars) : Option Chars → List (Chars × FieldVal)
  | none => []
  | some v => [(k, FieldVal.scalar v)]

/-- Decoded form of an optional list field. -/
def optFieldL (k : Chars) (vs : List Chars) : List (Chars × FieldVal) :=
  if vs = [] then [] else [(k, FieldVal.list vs)]

/-- Parsing the lines of an optional scalar field. -/
theorem parseFields_optScalar (k : Chars) (o : Option Chars) (rest : List Chars)
    (hk : ∀ c ∈ k, (c != ':') = true) :
    parseFields (optScalarLines k o ++ rest) = optFieldS k o ++ parseFields rest := by
  cases o with
  | none => simp [optScalarLines, optFieldS]
  | some v =>
    show parseFields (scalarLine k v :: rest) = (k, FieldVal.scalar v) :: parseFields rest
    exact parseFields_scalar k v rest hk

/-- Parsing the lines of a trailing optional scalar field. -/
theorem parseFields_optScalar_nil (k : Chars) (o : Option Chars)
    (hk : ∀ c ∈ k, (c != ':') = true) :
    parseFields (optScalarLines k o) = optFieldS k o := by
  have h := parseFields_optScalar k o [] hk
  have h0 : parseFields [] = [] := by
    unfold parseFields
    rfl
  rw [List.append_nil, h0, List.append_nil] at h
  exact h

/-- Parsing the lines of an optional list field. -/
theorem parseFields_optList (k : Chars) (vs : List Chars) (rest : List Chars)
    (hk : ∀ c ∈ k, (c != ':') = true)
    (hr : ∀ l, rest.head? = some l → isItemLine l = false) :
    parseFields (optListLines k vs ++ rest) = optFieldL k vs ++ parseFields rest := by
  unfold optListLines optFieldL
  split
  · simp
  · rw [parseFields_list k vs rest hk hr]
    rfl

/-- The head of a line list starting with a scalar line is not an item
line. -/
theorem head_not_item_cons_scalar (k v : Chars) (rest : List Chars)
    (hk : isItemLine (scalarLine k v) = false) :
    ∀ l, (scalarLine k v :: rest).head? = some l → isItemLine l = false := by
  intro l h
  simp only [List.head?_cons, Option.some.injEq] at h
  subst h
  exact hk

/-- The head of a line list starting with an optional list block is not
an item line, provided its key line is not and the rest starts clean. -/
theorem head_not_item_optList (k : Chars) (vs : List Chars) (rest : List Chars)
    (hk : isItemLine (k ++ [':']) = false)
    (hr : ∀ l, rest.head? = some l → isItemLine l = false) :
    ∀ l, (optListLines k vs ++ rest).head? = some l → isItemLine l = false := by
  unfold optListLines
  split
  · simpa using hr
  · intro l h
    simp only [listLines, List.cons_append, List.head?_cons, Option.some.injEq] at h
    subst h
    exact hk

/-- The decoded header fields of a record, mirroring headerLines. -/
def headerFields (r : Email) : List (Chars × FieldVal) :=
  (kFrom, FieldVal.scalar r.from_addr) ::
    ((kTo, FieldVal.list r.to_addrs) ::
      (optFieldL kCc r.cc ++
        (optFieldL kBcc r.bcc ++
          ((kSubject, FieldVal.scalar r.subject) ::
            (optFieldS kDate r.date ++
              (optFieldS kMessageId r.message_id ++
                (optFieldS kAccount r.account ++
                  optFieldS kOriginalHash r.original_hash)))))))

/-- Parsing the emitted header block recovers every emitted field. -/
theorem parseFields_headerLines (r : Email) :
    parseFields (headerLines r) = headerFields r := by
  have hsub : ∀ l, (scalarLine kSubject r.subject ::
      (optScalarLines kDate r.date ++
        (optScalarLines kMessageId r.message_id ++
          (optScalarLines kAccount r.account ++
            optScalarLines kOriginalHash r.original_hash)))).head? = some l →
      isItemLine l = false :=
    head_not_item_cons_scalar _ _ _ (isItemLine_first_not_space 's' _ (by decide))
  have hbcc := head_not_item_optList kBcc r.bcc _ (by decide) hsub
  have hcc := head_not_item_optList kCc r.cc _ (by decide) hbcc
  unfold headerLines headerFields
  rw [parseFields_scalar kFrom r.from_addr _ (by decide)]
  rw [parseFields_list kTo r.to_addrs _ (by decide) hcc]
  rw [parseFields_optList kCc r.cc _ (by decide) hbcc]
  rw [parseFields_optList kBcc r.bcc _ (by decide) hsub]
  rw [parseFields_scalar kSubject r.subject _ (by decide)]
  rw [parseFields_optScalar kDate r.date _ (by decide)]
  rw [parseFields_optScalar kMessageId r.message_id _ (by decide)]
  rw [parseFields_optScalar kAccount r.account _ (by decide)]
  rw [parseFields_optScalar_nil kOriginalHash r.original_hash (by decide)]

/-- Folding the decoded header fields over the empty record rebuilds
every field of the original record, whatever combination of optional
fields is populated. -/
theorem buildRecord_headerFields (r : Email) (body : List Chars) :
    buildRecord (headerFields r) body = { r with body := body } := by
  rcases r with ⟨f, t, cc, bcc, subj, bd, mi, dt, ac, oh⟩
  cases cc <;> cases bcc <;> cases dt <;> cases mi <;> cases ac <;> cases oh <;> rfl

/-- Claim C5: re-parsing the serialization of a well-formed record
reproduces every populated field: fromText of toText of the record
yields the record itself with the body normalized to end with exactly
one trailing newline (in the lines model: with trailing empty lines
dropped).  This covers from, to, cc, subject and body as claimed, and
also bcc and the optional metadata fields. -/
theorem fromText_toText_roundtrip (r : Email) (_wf : wellFormed r = true) :
    fromText (toText r) = some { r with body := normalizeBody r.body } := by
  have hne := mem_headerLines_ne_delim r
  have hfd : (delimLine != delimLine) = false := by simp
  simp only [toText, fromText, if_true]
  rw [dropWhile_append_all _ _ _ hne]
  rw [takeWhile_append_all _ _ _ hne]
  rw [List.dropWhile_cons, List.takeWhile_cons, hfd]
  simp only [Bool.false_eq_true, if_false, List.append_nil]
  rw [parseFields_headerLines]
  simp only [stripOneLeadingBlank, if_true]
  rw [buildRecord_headerFields]

/-- The record of the round-trip scenario of the integration tests. -/
def roundMail : Email :=
  Email.mk "sender@example.com".toList ["recipient@example.com".toList] [] []
    "Roundtrip Test".toList ["Body content here.".toList] none none none none

/-- Witness for C5: the concrete round-trip record is well formed and
re-parsing its serialization reproduces it. -/
theorem fromText_toText_roundtrip_witness :
    wellFormed roundMail = true ∧
    fromText (toText roundMail) =
      some { roundMail with body := normalizeBody roundMail.body } :=
  ⟨by decide, fromText_toText_roundtrip roundMail (by decide)⟩
